import Mathlib

/-!
Shallow embedding of the DID-document patch engine of the `vercre/did`
repository (crate `did-core`, file `src/document/patch.rs`), together with
the flexible single-or-list JSON codec
(`src/serde/flexvec_or_single.rs` and the `option_` variant).

The data model types (`DidDocument`, `VerificationMethod`, `VmRelationship`,
`Service`, `KeyPurpose`) are declared in the crate's `document` module, which
is not part of the sources at hand; they are modelled from the specification,
while every algorithm (patch application, relationship bookkeeping, builder
validation, codec) is translated directly from the source files.
-/

namespace Did

/-- Modelled from the spec: JWK public-key material (an opaque tagged record
for the engine; only structural equality matters to patching). -/
structure Jwk where
  kty : String
  crv : Option String
  x : Option String
  y : Option String
deriving DecidableEq, Repr

/-- Modelled from the spec: a verification method — identifier, controller,
method-type descriptor and public key material. The patch engine only ever
inspects the `id` field and copies the rest structurally. -/
structure VerificationMethod where
  id : String
  controller : String
  type_ : String
  public_key_jwk : Option Jwk
  public_key_multibase : Option String
deriving DecidableEq, Repr

/-- Modelled from the spec: a verification-relationship entry — either a
by-reference entry (carrying only `key_id`) or an embedded one (carrying a
full method). -/
structure VmRelationship where
  key_id : Option String
  verification_method : Option VerificationMethod
deriving DecidableEq, Repr

/-- Modelled from the spec: equality of relationship entries is defined by
the key identifier only — two entries are the same iff their key ids match,
independent of any embedded method. This is the `PartialEq` the engine's
`retain (a != vm_ref)` removal relies on. -/
def VmRelationship.key_eq (a b : VmRelationship) : Bool :=
  a.key_id == b.key_id

/-- Modelled from the spec: `VmRelationship::from(&VerificationMethod)`
builds the by-reference shape, carrying only the key identifier. -/
def VmRelationship.from_vm (vm : VerificationMethod) : VmRelationship :=
  { key_id := some vm.id, verification_method := none }

/-- Modelled from the spec: a service endpoint — a single URL or a
structured mapping. -/
structure Endpoint where
  url : Option String
  url_map : Option (List (String × List String))
deriving DecidableEq, Repr

/-- Modelled from the spec: a service — identifier, type tags, endpoints. -/
structure Service where
  id : String
  type_ : List String
  service_endpoint : List Endpoint
deriving DecidableEq, Repr

/-- Modelled from the spec: a JSON-LD context entry. -/
structure Context where
  url : Option String
  url_map : Option (List (String × List String))
deriving DecidableEq, Repr

/-- The five verification-relationship purposes (`KeyPurpose`). -/
inductive KeyPurpose where
  | Authentication
  | AssertionMethod
  | KeyAgreement
  | CapabilityDelegation
  | CapabilityInvocation
deriving DecidableEq, Repr, Fintype

/-- Modelled from the spec: the DID document — identifier, context entries,
optional controller list, optional method list, five optional relationship
lists, optional service list. -/
structure DidDocument where
  id : String
  context : List Context
  controller : Option (List String)
  also_known_as : Option (List String)
  verification_method : Option (List VerificationMethod)
  authentication : Option (List VmRelationship)
  assertion_method : Option (List VmRelationship)
  key_agreement : Option (List VmRelationship)
  capability_invocation : Option (List VmRelationship)
  capability_delegation : Option (List VmRelationship)
  service : Option (List Service)
deriving DecidableEq, Repr

/-- Patch action kinds (`Action` in `patch.rs`). -/
inductive Action where
  | Replace
  | AddPublicKeys
  | RemovePublicKeys
  | AddServices
  | RemoveServices
deriving DecidableEq, Repr

/-- A verification method plus its declared purposes (`VmWithPurpose`). -/
structure VmWithPurpose where
  verification_method : VerificationMethod
  purposes : Option (List KeyPurpose)
deriving DecidableEq, Repr

/-- The replacement payload carried by a `Replace` patch
(`Document` in `patch.rs`). -/
structure PatchDocument where
  public_keys : Option (List VmWithPurpose)
  services : Option (List Service)
deriving DecidableEq, Repr

/-- A patch (`Patch` in `patch.rs`): an action tag plus action-dependent
optional payload fields. -/
structure Patch where
  action : Action
  document : Option PatchDocument
  services : Option (List Service)
  ids : Option (List String)
  public_keys : Option (List VmWithPurpose)
deriving DecidableEq, Repr

/-- The transient relationship scratch structure (`VmRelationshipSet`). -/
structure VmRelationshipSet where
  authentication : List VmRelationship
  assertion_method : List VmRelationship
  key_agreement : List VmRelationship
  capability_delegation : List VmRelationship
  capability_invocation : List VmRelationship
deriving DecidableEq, Repr

/-- `VmRelationshipSet::default()`: five empty lists. -/
def VmRelationshipSet.empty : VmRelationshipSet :=
  ⟨[], [], [], [], []⟩

/-- `impl From<DidDocument> for VmRelationshipSet`: copy the five optional
relationship fields, an absent field becoming an empty list. -/
def VmRelationshipSet.from_doc (doc : DidDocument) : VmRelationshipSet :=
  { authentication := doc.authentication.getD []
    assertion_method := doc.assertion_method.getD []
    key_agreement := doc.key_agreement.getD []
    capability_delegation := doc.capability_delegation.getD []
    capability_invocation := doc.capability_invocation.getD [] }

/-- `VmRelationshipSet::push`: append the entry to the list selected by the
purpose. -/
def VmRelationshipSet.push (s : VmRelationshipSet) (purpose : KeyPurpose)
    (vm_ref : VmRelationship) : VmRelationshipSet :=
  match purpose with
  | .Authentication => { s with authentication := s.authentication ++ [vm_ref] }
  | .AssertionMethod => { s with assertion_method := s.assertion_method ++ [vm_ref] }
  | .KeyAgreement => { s with key_agreement := s.key_agreement ++ [vm_ref] }
  | .CapabilityDelegation =>
      { s with capability_delegation := s.capability_delegation ++ [vm_ref] }
  | .CapabilityInvocation =>
      { s with capability_invocation := s.capability_invocation ++ [vm_ref] }

/-- `VmRelationshipSet::remove`: drop every entry equal (by key id) to the
given reference from all five lists. -/
def VmRelationshipSet.remove (s : VmRelationshipSet) (vm_ref : VmRelationship) :
    VmRelationshipSet :=
  { authentication := s.authentication.filter (fun a => ¬ a.key_eq vm_ref)
    assertion_method := s.assertion_method.filter (fun a => ¬ a.key_eq vm_ref)
    key_agreement := s.key_agreement.filter (fun a => ¬ a.key_eq vm_ref)
    capability_delegation := s.capability_delegation.filter (fun a => ¬ a.key_eq vm_ref)
    capability_invocation := s.capability_invocation.filter (fun a => ¬ a.key_eq vm_ref) }

/-- Projection of a `VmRelationshipSet` at a purpose (proof convenience). -/
def VmRelationshipSet.get (s : VmRelationshipSet) : KeyPurpose → List VmRelationship
  | .Authentication => s.authentication
  | .AssertionMethod => s.assertion_method
  | .KeyAgreement => s.key_agreement
  | .CapabilityDelegation => s.capability_delegation
  | .CapabilityInvocation => s.capability_invocation

/-- Projection of a document's relationship field at a purpose
(proof convenience). -/
def DidDocument.vm_rel (doc : DidDocument) : KeyPurpose → Option (List VmRelationship)
  | .Authentication => doc.authentication
  | .AssertionMethod => doc.assertion_method
  | .KeyAgreement => doc.key_agreement
  | .CapabilityDelegation => doc.capability_delegation
  | .CapabilityInvocation => doc.capability_invocation

/-- `DidDocument::reload_vm_relationships`: write the five lists back,
collapsing an empty list to `None`. -/
def DidDocument.reload_vm_relationships (doc : DidDocument)
    (p : VmRelationshipSet) : DidDocument :=
  { doc with
    authentication := if p.authentication.isEmpty then none else some p.authentication
    assertion_method := if p.assertion_method.isEmpty then none else some p.assertion_method
    key_agreement := if p.key_agreement.isEmpty then none else some p.key_agreement
    capability_delegation :=
      if p.capability_delegation.isEmpty then none else some p.capability_delegation
    capability_invocation :=
      if p.capability_invocation.isEmpty then none else some p.capability_invocation }

/-- The inner purposes loop of `apply_add_keys` / `apply_replace`:
`for p in purposes { my_purp.push(*p, &vm_ref) }`. -/
def push_purposes (ps : List KeyPurpose) (vm_ref : VmRelationship)
    (s : VmRelationshipSet) : VmRelationshipSet :=
  match ps with
  | [] => s
  | p :: rest => push_purposes rest vm_ref (s.push p vm_ref)

/-- The key loop shared by `apply_replace` and `apply_add_keys`: push each
key's method onto the accumulated method list and push a by-reference entry
for each declared purpose. -/
def add_keys_go (keys : List VmWithPurpose) (vm : List VerificationMethod)
    (purp : VmRelationshipSet) : List VerificationMethod × VmRelationshipSet :=
  match keys with
  | [] => (vm, purp)
  | k :: rest =>
      let vm_ref := VmRelationship.from_vm k.verification_method
      let purp2 := match k.purposes with
        | some ps => push_purposes ps vm_ref purp
        | none => purp
      add_keys_go rest (vm ++ [k.verification_method]) purp2

/-- The `if let Some(keys) = &pdoc.public_keys` block of `apply_replace`:
rebuild the method list and all five relationship categories from the
payload's key list. -/
def replace_keys_part (doc : DidDocument) (pdoc : PatchDocument) : DidDocument :=
  match pdoc.public_keys with
  | none => doc
  | some keys =>
      let r := add_keys_go keys [] VmRelationshipSet.empty
      DidDocument.reload_vm_relationships
        { doc with verification_method := some r.1 } r.2

/-- The `if let Some(services) = &pdoc.services` block of `apply_replace`:
replace the service list when the payload carries one. -/
def replace_services_part (doc : DidDocument) (pdoc : PatchDocument) : DidDocument :=
  match pdoc.services with
  | none => doc
  | some services => { doc with service := some services }

/-- `DidDocument::apply_replace`: rebuild methods and relationships from the
payload's key list (when present) and replace the service list (when
present). -/
def DidDocument.apply_replace (doc : DidDocument) (patch : Patch) : DidDocument :=
  match patch.document with
  | none => doc
  | some pdoc => replace_services_part (replace_keys_part doc pdoc) pdoc

/-- `DidDocument::apply_add_keys`: when the patch carries a key list, append
each method to the document's method list and push a reference per declared
purpose, then flush the relationship set back. -/
def DidDocument.apply_add_keys (doc : DidDocument) (patch : Patch) : DidDocument :=
  match patch.public_keys with
  | none => doc
  | some keys =>
      let my_vm := doc.verification_method.getD []
      let my_purp := VmRelationshipSet.from_doc doc
      let r := add_keys_go keys my_vm my_purp
      let doc := { doc with
        verification_method := if r.1.isEmpty then none else some r.1 }
      DidDocument.reload_vm_relationships doc r.2

/-- The `for id in ids { vms.retain(|v| v.id != *id) }` loop of
`apply_remove_keys`. -/
def retain_not_ids (ids : List String) (vms : List VerificationMethod) :
    List VerificationMethod :=
  match ids with
  | [] => vms
  | i :: rest => retain_not_ids rest (vms.filter (fun v => v.id ≠ i))

/-- The `for id in ids { my_purp.remove(...) }` loop of `apply_remove_keys`. -/
def remove_ids (ids : List String) (s : VmRelationshipSet) : VmRelationshipSet :=
  match ids with
  | [] => s
  | i :: rest =>
      remove_ids rest (s.remove { key_id := some i, verification_method := none })

/-- `DidDocument::apply_remove_keys`: when the patch carries an id list,
drop matching methods and matching relationship entries, then flush. -/
def DidDocument.apply_remove_keys (doc : DidDocument) (patch : Patch) : DidDocument :=
  match patch.ids with
  | none => doc
  | some ids =>
      let my_purp := VmRelationshipSet.from_doc doc
      let doc := match doc.verification_method with
        | none => doc
        | some vms =>
            { doc with verification_method := some (retain_not_ids ids vms) }
      DidDocument.reload_vm_relationships doc (remove_ids ids my_purp)

/-- The `AddServices` arm of `apply_patches`: extend the service list (or
create it) when the patch carries services. -/
def DidDocument.apply_add_services (doc : DidDocument) (patch : Patch) : DidDocument :=
  match patch.services with
  | none => doc
  | some services =>
      match doc.service with
      | some s => { doc with service := some (s ++ services) }
      | none => { doc with service := some services }

/-- The `for k in services { s.retain(|t| t.id != *k) }` loop of the
`RemoveServices` arm. -/
def retain_services_not_ids (ids : List String) (svcs : List Service) : List Service :=
  match ids with
  | [] => svcs
  | i :: rest => retain_services_not_ids rest (svcs.filter (fun t => t.id ≠ i))

/-- The `RemoveServices` arm of `apply_patches`: when the patch carries ids
and the document has services, retain only non-matching services (the field
stays `Some`, even when emptied). -/
def DidDocument.apply_remove_services (doc : DidDocument) (patch : Patch) : DidDocument :=
  match patch.ids with
  | none => doc
  | some ids =>
      match doc.service with
      | none => doc
      | some s => { doc with service := some (retain_services_not_ids ids s) }

/-- `DidDocument::apply_patches`: fold the patches in order; a `Replace`
patch is applied and then the loop breaks. -/
def DidDocument.apply_patches (doc : DidDocument) : List Patch → DidDocument
  | [] => doc
  | p :: rest =>
      match p.action with
      | .Replace => doc.apply_replace p
      | .AddPublicKeys => (doc.apply_add_keys p).apply_patches rest
      | .RemovePublicKeys => (doc.apply_remove_keys p).apply_patches rest
      | .AddServices => (doc.apply_add_services p).apply_patches rest
      | .RemoveServices => (doc.apply_remove_services p).apply_patches rest

/-! ### Concrete fixtures (mirroring the shapes used by the crate's tests) -/

/-- Sample JWK key material. -/
def jwk1 : Jwk := ⟨"EC", some "secp256k1", some "x1", some "y1"⟩

/-- Sample verification method `k1`. -/
def k1 : VerificationMethod :=
  ⟨"k1", "did:example:1", "EcdsaSecp256k1VerificationKey2019", some jwk1, none⟩

/-- Sample verification method `k2`. -/
def k2 : VerificationMethod :=
  ⟨"k2", "https://example.com", "EcdsaSecp256k1VerificationKey2019", none, none⟩

/-- By-reference relationship entry for `k1`. -/
def k1_ref : VmRelationship := ⟨some "k1", none⟩

/-- By-reference relationship entry for `k2`. -/
def k2_ref : VmRelationship := ⟨some "k2", none⟩

/-- Sample service `s1`. -/
def s1 : Service := ⟨"s1", ["s1type"], [⟨some "https://s1.example.com/", none⟩]⟩

/-- Sample document: method `k1` referenced in `authentication` and
`assertionMethod`, one service `s1`. -/
def doc1 : DidDocument :=
  { id := "did:example:1"
    context := [⟨some "https://www.w3.org/ns/did/v1", none⟩]
    controller := some ["did:example:1"]
    also_known_as := none
    verification_method := some [k1]
    authentication := some [k1_ref]
    assertion_method := some [k1_ref]
    key_agreement := none
    capability_invocation := none
    capability_delegation := none
    service := some [s1] }

/-- `k2` with the single declared purpose `authentication`. -/
def k2p : VmWithPurpose := ⟨k2, some [.Authentication]⟩

/-- Patch adding `k2` (action `add-public-keys`). -/
def patch_add_k2 : Patch := ⟨.AddPublicKeys, none, none, none, some [k2p]⟩

/-- Patch removing service `s1` (action `remove-services`). -/
def patch_remove_s1 : Patch := ⟨.RemoveServices, none, none, some ["s1"], none⟩

/-- Patch removing key `k2` (action `remove-public-keys`). -/
def patch_remove_k2 : Patch := ⟨.RemovePublicKeys, none, none, some ["k2"], none⟩

/-- Replace patch carrying a replacement payload with key `k2`. -/
def patch_replace_k2 : Patch :=
  ⟨.Replace, some ⟨some [k2p], some []⟩, none, none, none⟩

/-- Replace patch with no payload. -/
def patch_replace_missing : Patch := ⟨.Replace, none, none, none, none⟩

/-- A document with every optional field absent. -/
def empty_doc : DidDocument :=
  { id := "did:example:0", context := [], controller := none, also_known_as := none,
    verification_method := none, authentication := none, assertion_method := none,
    key_agreement := none, capability_invocation := none, capability_delegation := none,
    service := none }

/-- Patch removing key `k1` (action `remove-public-keys`). -/
def patch_remove_k1 : Patch := ⟨.RemovePublicKeys, none, none, some ["k1"], none⟩

/-- An `add-public-keys` patch carrying a single key. -/
def add_key_patch (k : VmWithPurpose) : Patch :=
  ⟨Action.AddPublicKeys, none, none, none, some [k]⟩

/-- A `remove-public-keys` patch carrying an id list. -/
def remove_keys_patch (ids : List String) : Patch :=
  ⟨Action.RemovePublicKeys, none, none, some ids, none⟩

/-- The action-appropriate payload field of the patch is absent. -/
def payload_absent (p : Patch) : Prop :=
  match p.action with
  | .Replace => p.document = none
  | .AddPublicKeys => p.public_keys = none
  | .RemovePublicKeys => p.ids = none
  | .AddServices => p.services = none
  | .RemoveServices => p.ids = none

/-- No relationship-category field of the document is `Some(empty list)`. -/
def no_empty_relationships (doc : DidDocument) : Prop :=
  doc.authentication ≠ some [] ∧ doc.assertion_method ≠ some [] ∧
  doc.key_agreement ≠ some [] ∧ doc.capability_delegation ≠ some [] ∧
  doc.capability_invocation ≠ some []

instance no_empty_relationships_decidable (doc : DidDocument) :
    Decidable (no_empty_relationships doc) :=
  inferInstanceAs (Decidable (_ ∧ _ ∧ _ ∧ _ ∧ _))


/-! ### Counting helpers used by the relationship statements -/

/-- Number of occurrences of a purpose in a purpose list. -/
def count_purpose (c : KeyPurpose) (ps : List KeyPurpose) : Nat :=
  (ps.filter (fun p => p = c)).length

/-- Number of entries of a relationship list whose key identifier is the
given id. -/
def key_ref_count (l : List VmRelationship) (i : String) : Nat :=
  (l.filter (fun r => r.key_id = some i)).length

/-- The by-reference entries an `add-public-keys` key list contributes to a
given relationship category: one entry per declared occurrence of the
purpose, in key order. -/
def additions (keys : List VmWithPurpose) (c : KeyPurpose) : List VmRelationship :=
  match keys with
  | [] => []
  | k :: rest =>
      (match k.purposes with
       | some ps =>
           List.replicate (count_purpose c ps) (VmRelationship.from_vm k.verification_method)
       | none => []) ++ additions rest c

/-! ### Patch builder (`Builder` in `patch.rs`) -/

/-- Modelled from the spec: the two error kinds this core surfaces —
`InvalidPatch` ("Invalid patch shape") and `InvalidInput` ("Invalid input").
The `Err` enum itself lives in the crate's error module. -/
inductive Err where
  | invalidPatch
  | invalidInput
deriving DecidableEq, Repr

/-- The character class of `check_key_id`'s regular expression
`^[a-zA-Z0-9_\-\?#:/=&\+%]*$`: ASCII alphanumeric or one of the permitted
delimiters. -/
def allowed_key_id_char (c : Char) : Bool :=
  c.isAlphanum || c == '_' || c == '-' || c == '?' || c == '#' || c == ':' ||
  c == '/' || c == '=' || c == '&' || c == '+' || c == '%'

deriving instance DecidableEq for Except

/-- The patch builder: the action chosen at construction plus the
accumulated payload fields. -/
structure Builder where
  action : Action
  document : Option PatchDocument
  services : List Service
  ids : List String
  public_keys : List VmWithPurpose
deriving DecidableEq, Repr

/-- `Builder::new`: start from the chosen action and empty payloads. -/
def Builder.new (action : Action) : Builder := ⟨action, none, [], [], []⟩

/-- `Builder::check_key_id`: accept exactly the strings all of whose
characters are in the permitted class; reject with `InvalidPatch`. -/
def Builder.check_key_id (id : String) : Except Err Unit :=
  if id.toList.all allowed_key_id_char then Except.ok ()
  else Except.error Err.invalidPatch

/-- The duplicate-purpose detection of `Builder::public_key` (a seen-set
loop erroring at the first repeated purpose). -/
def has_duplicate_purpose : List KeyPurpose → Bool
  | [] => false
  | p :: rest => rest.any (fun q => q = p) || has_duplicate_purpose rest

/-- `Builder::public_key`: legal only for `AddPublicKeys`; validates the key
id character class, rejects duplicate purposes (`InvalidInput`) and a key id
already on this builder (`InvalidPatch`). -/
def Builder.public_key (b : Builder) (key : VmWithPurpose) : Except Err Builder :=
  if b.action ≠ Action.AddPublicKeys then Except.error Err.invalidPatch
  else match Builder.check_key_id key.verification_method.id with
  | Except.error e => Except.error e
  | Except.ok _ =>
      if (match key.purposes with
          | some ps => has_duplicate_purpose ps
          | none => false) then Except.error Err.invalidInput
      else if b.public_keys.any
          (fun k => k.verification_method.id = key.verification_method.id) then
        Except.error Err.invalidPatch
      else Except.ok { b with public_keys := b.public_keys ++ [key] }

/-- `Builder::id`: validates the character class first, then that the action
is one of the two removal kinds, then rejects duplicates. -/
def Builder.id (b : Builder) (id : String) : Except Err Builder :=
  match Builder.check_key_id id with
  | Except.error e => Except.error e
  | Except.ok _ =>
      if b.action ≠ Action.RemovePublicKeys ∧ b.action ≠ Action.RemoveServices then
        Except.error Err.invalidPatch
      else if b.ids.any (fun i => i = id) then Except.error Err.invalidPatch
      else Except.ok { b with ids := b.ids ++ [id] }

/-- `Builder::service`: legal only for `AddServices`. -/
def Builder.service (b : Builder) (svc : Service) : Except Err Builder :=
  if b.action ≠ Action.AddServices then Except.error Err.invalidPatch
  else Except.ok { b with services := b.services ++ [svc] }

/-- `Builder::build`: enforce the per-action non-emptiness requirement and
emit a patch with only the action-relevant field populated. -/
def Builder.build (b : Builder) : Except Err Patch :=
  match b.action with
  | Action.Replace =>
      match b.document with
      | none => Except.error Err.invalidPatch
      | some d => Except.ok ⟨Action.Replace, some d, none, none, none⟩
  | Action.AddPublicKeys =>
      if b.public_keys.isEmpty then Except.error Err.invalidPatch
      else Except.ok ⟨Action.AddPublicKeys, none, none, none, some b.public_keys⟩
  | Action.RemovePublicKeys =>
      if b.ids.isEmpty then Except.error Err.invalidPatch
      else Except.ok ⟨Action.RemovePublicKeys, none, none, some b.ids, none⟩
  | Action.AddServices =>
      if b.services.isEmpty then Except.error Err.invalidPatch
      else Except.ok ⟨Action.AddServices, none, some b.services, none, none⟩
  | Action.RemoveServices =>
      if b.ids.isEmpty then Except.error Err.invalidPatch
      else Except.ok ⟨Action.RemoveServices, none, none, some b.ids, none⟩

/-- Fold `Builder::public_key` over a key list, stopping at the first
error. -/
def Builder.add_all (b : Builder) : List VmWithPurpose → Except Err Builder
  | [] => Except.ok b
  | k :: rest =>
      match b.public_key k with
      | Except.ok b2 => b2.add_all rest
      | Except.error e => Except.error e

/-! ### The flexible single-or-list JSON codec
(`flexvec_or_single.rs`, `option_flexvec_or_single.rs`) -/

/-- A JSON value (the image of `serde_json::Value`). -/
inductive Json where
  | null
  | bool (b : Bool)
  | num (n : Int)
  | str (s : String)
  | arr (elems : List Json)
  | obj (fields : List (String × Json))
deriving Repr

/-- Deserialization failure kinds of the codec's visitor: serde's
`invalid_type` rejections and its `custom` error for non-string/object
array elements. -/
inductive DeError where
  | invalidType
  | custom
deriving DecidableEq, Repr

/-- The element-type interface the generic codec is instantiated at:
`ser` is the element's `Serialize`, `de_obj` its `Deserialize` applied to a
JSON map (used by both `visit_map` and `serde_json::from_value` on array
elements), `from_str` its `FromStr`, and `parse_embedded` the
`serde_json::from_str::<Vec<T>>` parse of an embedded-array string. -/
structure ElemCodec (T : Type) where
  ser : T → Json
  de_obj : List (String × Json) → Option T
  from_str : String → Option T
  parse_embedded : String → Option (List T)

/-- The `value.starts_with(bracket)` test of `visit_str`: the string's
first character is an opening square bracket. -/
def starts_with_bracket (s : String) : Bool :=
  match s.toList with
  | [] => false
  | c :: _ => c == '['

/-- `flexvec_or_single::serialize`: a one-element list serializes as the
bare element, any other length as an array. -/
def flexvec_serialize {T : Type} (C : ElemCodec T) (value : List T) : Json :=
  match value with
  | [t] => C.ser t
  | _ => Json.arr (value.map C.ser)

/-- The `visit_seq` loop: each array element must be a string (parsed via
`FromStr`) or an object (parsed via the element deserializer); anything else
is a custom error, and the first failure aborts. -/
def visit_seq_elems {T : Type} (C : ElemCodec T) : List Json → Except DeError (List T)
  | [] => Except.ok []
  | Json.str s :: rest =>
      match C.from_str s with
      | none => Except.error DeError.invalidType
      | some t =>
          match visit_seq_elems C rest with
          | Except.ok ts => Except.ok (t :: ts)
          | Except.error e => Except.error e
  | Json.obj o :: rest =>
      match C.de_obj o with
      | none => Except.error DeError.invalidType
      | some t =>
          match visit_seq_elems C rest with
          | Except.ok ts => Except.ok (t :: ts)
          | Except.error e => Except.error e
  | _ :: _ => Except.error DeError.custom

/-- `flexvec_or_single::deserialize` (via `deserialize_any`): an object
becomes a one-element list, an array goes through the `visit_seq` loop, and
a string either embeds an array (when it starts with a bracket, any parse
failure silently yielding the empty list) or is parsed via `FromStr`. -/
def flexvec_deserialize {T : Type} (C : ElemCodec T) : Json → Except DeError (List T)
  | Json.obj o =>
      match C.de_obj o with
      | some t => Except.ok [t]
      | none => Except.error DeError.invalidType
  | Json.arr xs => visit_seq_elems C xs
  | Json.str s =>
      if starts_with_bracket s then Except.ok ((C.parse_embedded s).getD [])
      else match C.from_str s with
        | some t => Except.ok [t]
        | none => Except.error DeError.invalidType
  | _ => Except.error DeError.invalidType

/-- `option_flexvec_or_single::serialize`: `None` serializes as JSON null,
otherwise as in the non-optional codec. -/
def option_flexvec_serialize {T : Type} (C : ElemCodec T) (value : Option (List T)) :
    Json :=
  match value with
  | none => Json.null
  | some [t] => C.ser t
  | some ts => Json.arr (ts.map C.ser)

/-- `option_flexvec_or_single::deserialize`: as the non-optional codec, with
every success wrapped in `Some`. -/
def option_flexvec_deserialize {T : Type} (C : ElemCodec T) :
    Json → Except DeError (Option (List T))
  | Json.obj o =>
      match C.de_obj o with
      | some t => Except.ok (some [t])
      | none => Except.error DeError.invalidType
  | Json.arr xs =>
      match visit_seq_elems C xs with
      | Except.ok ts => Except.ok (some ts)
      | Except.error e => Except.error e
  | Json.str s =>
      if starts_with_bracket s then Except.ok (some ((C.parse_embedded s).getD []))
      else match C.from_str s with
        | some t => Except.ok (some [t])
        | none => Except.error DeError.invalidType
  | _ => Except.error DeError.invalidType

/-- A concrete element codec (the shape of the crate's `Nested` test type:
an object with a single text field, no string form). -/
def name_codec : ElemCodec String :=
  { ser := fun s => Json.obj [("n", Json.str s)]
    de_obj := fun fields =>
      match fields with
      | [(k, Json.str s)] => if k = "n" then some s else none
      | _ => none
    from_str := fun _ => none
    parse_embedded := fun _ => none }

/-! ### Claim C1: a `Replace` patch stops the batch -/

/-- C1: applying a batch whose first `Replace` patch is `p` gives the same
document as applying only the prefix up to and including `p`; the patches
after the first `Replace` are never applied. -/
theorem apply_patches_stops_at_replace (doc : DidDocument) (pre : List Patch)
    (p : Patch) (post : List Patch)
    (hpre : ∀ q ∈ pre, q.action ≠ Action.Replace)
    (hp : p.action = Action.Replace) :
    doc.apply_patches (pre ++ p :: post) = doc.apply_patches (pre ++ [p]) := by
  induction pre generalizing doc with
  | nil =>
      simp only [List.nil_append, DidDocument.apply_patches, hp]
  | cons q rest ih =>
      have hq : q.action ≠ Action.Replace := hpre q (List.mem_cons_self q rest)
      have hrest : ∀ r ∈ rest, r.action ≠ Action.Replace :=
        fun r hr => hpre r (List.mem_cons_of_mem q hr)
      cases hact : q.action with
      | Replace => exact absurd hact hq
      | AddPublicKeys =>
          simp only [List.cons_append, DidDocument.apply_patches, hact]
          exact ih _ hrest
      | RemovePublicKeys =>
          simp only [List.cons_append, DidDocument.apply_patches, hact]
          exact ih _ hrest
      | AddServices =>
          simp only [List.cons_append, DidDocument.apply_patches, hact]
          exact ih _ hrest
      | RemoveServices =>
          simp only [List.cons_append, DidDocument.apply_patches, hact]
          exact ih _ hrest

/-- Witness for C1 at concrete inputs. -/
theorem apply_patches_stops_at_replace_witness :
    (∀ q ∈ [patch_add_k2], q.action ≠ Action.Replace) ∧
    patch_replace_k2.action = Action.Replace ∧
    doc1.apply_patches ([patch_add_k2] ++ patch_replace_k2 :: [patch_remove_s1]) =
      doc1.apply_patches ([patch_add_k2] ++ [patch_replace_k2]) :=
  ⟨by decide, by decide,
    apply_patches_stops_at_replace doc1 [patch_add_k2] patch_replace_k2
      [patch_remove_s1] (by decide) (by decide)⟩

/-! ### Claim C6: a patch with its action-appropriate payload absent is a
no-op -/

/-- C6: applying a single patch whose action-appropriate payload field is
absent leaves the document unchanged (and the engine is total, so no error
is raised). -/
theorem apply_patches_missing_payload_noop (doc : DidDocument) (p : Patch)
    (h : payload_absent p) : doc.apply_patches [p] = doc := by
  cases hact : p.action <;>
    simp_all [payload_absent, DidDocument.apply_patches, DidDocument.apply_replace,
      DidDocument.apply_add_keys, DidDocument.apply_remove_keys,
      DidDocument.apply_add_services, DidDocument.apply_remove_services]

/-- Witness for C6: a `Replace` patch with no replacement payload is a
no-op on the sample document. -/
theorem apply_patches_missing_payload_noop_witness :
    payload_absent patch_replace_missing ∧
    doc1.apply_patches [patch_replace_missing] = doc1 :=
  ⟨by rfl,
    apply_patches_missing_payload_noop doc1 patch_replace_missing (by rfl)⟩

/-! ### Claim C7: no relationship category is ever `Some(empty list)` -/

theorem collapse_ne_some_nil (l : List VmRelationship) :
    (if l.isEmpty then none else some l) ≠ some ([] : List VmRelationship) := by
  cases l <;> simp

theorem reload_no_empty (doc : DidDocument) (s : VmRelationshipSet) :
    no_empty_relationships (doc.reload_vm_relationships s) := by
  refine ⟨?_, ?_, ?_, ?_, ?_⟩ <;>
    simp only [DidDocument.reload_vm_relationships] <;>
    apply collapse_ne_some_nil

theorem no_empty_set_service (d : DidDocument) (x : Option (List Service))
    (h : no_empty_relationships d) :
    no_empty_relationships { d with service := x } := h

theorem replace_keys_part_no_empty (doc : DidDocument) (pdoc : PatchDocument)
    (h : no_empty_relationships doc) :
    no_empty_relationships (replace_keys_part doc pdoc) := by
  unfold replace_keys_part
  cases pdoc.public_keys with
  | none => exact h
  | some keys => exact reload_no_empty _ _

theorem replace_services_part_no_empty (doc : DidDocument) (pdoc : PatchDocument)
    (h : no_empty_relationships doc) :
    no_empty_relationships (replace_services_part doc pdoc) := by
  unfold replace_services_part
  cases pdoc.services with
  | none => exact h
  | some svcs => exact no_empty_set_service doc _ h

theorem apply_replace_no_empty (doc : DidDocument) (p : Patch)
    (h : no_empty_relationships doc) :
    no_empty_relationships (doc.apply_replace p) := by
  unfold DidDocument.apply_replace
  cases p.document with
  | none => exact h
  | some pdoc =>
      exact replace_services_part_no_empty _ _ (replace_keys_part_no_empty _ _ h)

theorem apply_add_keys_no_empty (doc : DidDocument) (p : Patch)
    (h : no_empty_relationships doc) :
    no_empty_relationships (doc.apply_add_keys p) := by
  unfold DidDocument.apply_add_keys
  cases hk : p.public_keys with
  | none => exact h
  | some keys => exact reload_no_empty _ _

theorem apply_remove_keys_no_empty (doc : DidDocument) (p : Patch)
    (h : no_empty_relationships doc) :
    no_empty_relationships (doc.apply_remove_keys p) := by
  unfold DidDocument.apply_remove_keys
  cases hi : p.ids with
  | none => exact h
  | some ids => exact reload_no_empty _ _

theorem apply_add_services_no_empty (doc : DidDocument) (p : Patch)
    (h : no_empty_relationships doc) :
    no_empty_relationships (doc.apply_add_services p) := by
  unfold DidDocument.apply_add_services
  cases hs : p.services with
  | none => exact h
  | some svcs => cases hd : doc.service with
    | none => simpa [no_empty_relationships] using h
    | some cur => simpa [no_empty_relationships] using h

theorem apply_remove_services_no_empty (doc : DidDocument) (p : Patch)
    (h : no_empty_relationships doc) :
    no_empty_relationships (doc.apply_remove_services p) := by
  unfold DidDocument.apply_remove_services
  cases hi : p.ids with
  | none => exact h
  | some ids => cases hd : doc.service with
    | none => exact h
    | some cur => simpa [no_empty_relationships] using h

/-- C7: starting from a document in which no relationship-category field is
`Some(empty list)`, applying any patch list leaves each of the five
relationship-category fields either absent or a non-empty list. -/
theorem apply_patches_no_empty_relationships (doc : DidDocument)
    (patches : List Patch) (h : no_empty_relationships doc) :
    no_empty_relationships (doc.apply_patches patches) := by
  induction patches generalizing doc with
  | nil => exact h
  | cons p rest ih =>
      cases hact : p.action with
      | Replace =>
          simp only [DidDocument.apply_patches, hact]
          exact apply_replace_no_empty doc p h
      | AddPublicKeys =>
          simp only [DidDocument.apply_patches, hact]
          exact ih _ (apply_add_keys_no_empty doc p h)
      | RemovePublicKeys =>
          simp only [DidDocument.apply_patches, hact]
          exact ih _ (apply_remove_keys_no_empty doc p h)
      | AddServices =>
          simp only [DidDocument.apply_patches, hact]
          exact ih _ (apply_add_services_no_empty doc p h)
      | RemoveServices =>
          simp only [DidDocument.apply_patches, hact]
          exact ih _ (apply_remove_services_no_empty doc p h)

/-- Witness for C7 at concrete inputs. -/
theorem apply_patches_no_empty_relationships_witness :
    no_empty_relationships doc1 ∧
    no_empty_relationships (doc1.apply_patches [patch_add_k2, patch_remove_k2]) :=
  ⟨by decide,
    apply_patches_no_empty_relationships doc1 [patch_add_k2, patch_remove_k2]
      (by decide)⟩

/-! ### Claim C3: remove-public-keys semantics -/

theorem mem_retain_not_ids {ids : List String} {vms : List VerificationMethod}
    {v : VerificationMethod} (h : v ∈ retain_not_ids ids vms) :
    v ∈ vms ∧ ∀ i ∈ ids, v.id ≠ i := by
  induction ids generalizing vms with
  | nil => exact ⟨h, by simp⟩
  | cons i rest ih =>
      obtain ⟨hmem, hno⟩ := ih h
      rw [List.mem_filter] at hmem
      refine ⟨hmem.1, ?_⟩
      intro j hj
      rcases List.mem_cons.mp hj with hj | hj
      · subst hj
        simpa using hmem.2
      · exact hno j hj

theorem get_remove (s : VmRelationshipSet) (r : VmRelationship) (c : KeyPurpose) :
    (s.remove r).get c = (s.get c).filter (fun a => ¬ a.key_eq r) := by
  cases c <;> rfl

theorem get_from_doc (doc : DidDocument) (c : KeyPurpose) :
    (VmRelationshipSet.from_doc doc).get c = (doc.vm_rel c).getD [] := by
  cases c <;> rfl

theorem vm_rel_reload (doc : DidDocument) (s : VmRelationshipSet) (c : KeyPurpose) :
    (doc.reload_vm_relationships s).vm_rel c =
      if (s.get c).isEmpty then none else some (s.get c) := by
  cases c <;> rfl

theorem collapse_getD (l : List VmRelationship) :
    ((if l.isEmpty then none else some l) : Option (List VmRelationship)).getD [] = l := by
  cases l <;> simp

theorem mem_remove_ids {ids : List String} {s : VmRelationshipSet} {c : KeyPurpose}
    {r : VmRelationship} (h : r ∈ (remove_ids ids s).get c) :
    r ∈ s.get c ∧ ∀ i ∈ ids, r.key_id ≠ some i := by
  induction ids generalizing s with
  | nil => exact ⟨h, by simp⟩
  | cons i rest ih =>
      obtain ⟨hmem, hno⟩ := ih h
      rw [get_remove, List.mem_filter] at hmem
      refine ⟨hmem.1, ?_⟩
      intro j hj
      rcases List.mem_cons.mp hj with hj | hj
      · subst hj
        have := hmem.2
        simp [VmRelationship.key_eq] at this
        simpa using this
      · exact hno j hj

theorem reload_verification_method (doc : DidDocument) (s : VmRelationshipSet) :
    (doc.reload_vm_relationships s).verification_method = doc.verification_method := rfl

/-- C3: applying a `RemovePublicKeys` patch carrying an id list removes every
verification method whose id is listed and every relationship entry (in all
five categories) whose key identifier is listed, and no relationship
category is left as `Some(empty list)`. -/
theorem apply_remove_keys_spec (doc : DidDocument) (p : Patch) (ids : List String)
    (ha : p.action = Action.RemovePublicKeys) (hi : p.ids = some ids) :
    (∀ v ∈ (doc.apply_patches [p]).verification_method.getD [], v.id ∉ ids) ∧
    (∀ c, ∀ r ∈ ((doc.apply_patches [p]).vm_rel c).getD [], ∀ i ∈ ids, r.key_id ≠ some i) ∧
    (∀ c, (doc.apply_patches [p]).vm_rel c ≠ some []) := by
  have h1 : doc.apply_patches [p] = doc.apply_remove_keys p := by
    simp only [DidDocument.apply_patches, ha]
  rw [h1]
  unfold DidDocument.apply_remove_keys
  rw [hi]
  refine ⟨?_, ?_, ?_⟩
  · intro v hv
    rw [reload_verification_method] at hv
    cases hvm : doc.verification_method with
    | none => simp [hvm] at hv
    | some vms =>
        rw [hvm] at hv
        simp only [Option.getD_some] at hv
        intro hmem
        exact (mem_retain_not_ids hv).2 v.id hmem rfl
  · intro c r hr i him
    rw [vm_rel_reload, collapse_getD] at hr
    exact (mem_remove_ids hr).2 i him
  · intro c
    rw [vm_rel_reload]
    exact collapse_ne_some_nil _

/-! ### Claim C3 witness -/

/-- Witness for C3 at concrete inputs. -/
theorem apply_remove_keys_spec_witness :
    patch_remove_k1.action = Action.RemovePublicKeys ∧
    patch_remove_k1.ids = some ["k1"] ∧
    ((∀ v ∈ (doc1.apply_patches [patch_remove_k1]).verification_method.getD [],
        v.id ∉ ["k1"]) ∧
     (∀ c, ∀ r ∈ ((doc1.apply_patches [patch_remove_k1]).vm_rel c).getD [],
        ∀ i ∈ ["k1"], r.key_id ≠ some i) ∧
     (∀ c, (doc1.apply_patches [patch_remove_k1]).vm_rel c ≠ some [])) :=
  ⟨rfl, rfl, apply_remove_keys_spec doc1 patch_remove_k1 ["k1"] rfl rfl⟩

/-! ### Claim C5: the concrete add-key / remove-service scenario -/

/-- C5 counterexample: in the spec's concrete scenario the resulting
`service` field is `Some(empty list)`, not absent as the claim states. -/
theorem concrete_scenario_services_not_absent :
    (doc1.apply_patches [patch_add_k2, patch_remove_s1]).service = some [] ∧
    some ([] : List Service) ≠ none := by
  decide

/-- C5 (amended): the concrete scenario yields methods `[k1, k2]`,
`authentication` `[k1, k2]`, `assertionMethod` `[k1]`, and a present but
empty service list (`Some []`, not absent). -/
theorem concrete_scenario_amended :
    doc1.apply_patches [patch_add_k2, patch_remove_s1] =
      { doc1 with
        verification_method := some [k1, k2]
        authentication := some [k1_ref, k2_ref]
        service := some [] } := by
  decide

/-! ### Claim C8: malformed identifiers and the error kind -/

/-- C8 counterexample: an id containing a space is rejected by the Builder's
`id` setter with the `InvalidPatch` kind, not the `InvalidInput` kind the
claim states. -/
theorem builder_space_id_not_invalid_input :
    (Builder.new Action.RemovePublicKeys).id "a b" = Except.error Err.invalidPatch ∧
    (Builder.new Action.RemovePublicKeys).id "a b" ≠ Except.error Err.invalidInput := by
  decide

/-- C8 (amended): every identifier containing a character outside the
permitted class (ASCII alphanumeric plus `_-?#:/=&+%`) is rejected by
`check_key_id`, by the `id` setter (for both removal actions), and by the
`public_key` setter, in each case with the `InvalidPatch` error kind. -/
theorem builder_bad_char_rejected (s : String) (key : VmWithPurpose)
    (hbad : s.toList.all allowed_key_id_char = false)
    (hkey : key.verification_method.id = s) :
    Builder.check_key_id s = Except.error Err.invalidPatch ∧
    (Builder.new Action.RemovePublicKeys).id s = Except.error Err.invalidPatch ∧
    (Builder.new Action.RemoveServices).id s = Except.error Err.invalidPatch ∧
    (Builder.new Action.AddPublicKeys).public_key key = Except.error Err.invalidPatch := by
  have hc : Builder.check_key_id s = Except.error Err.invalidPatch := by
    unfold Builder.check_key_id
    rw [hbad]
    rfl
  refine ⟨hc, ?_, ?_, ?_⟩
  · simp [Builder.id, hc]
  · simp [Builder.id, hc]
  · simp [Builder.public_key, Builder.new, hkey, hc]

/-- Witness for the amended C8 at the concrete id `"a b"`. -/
theorem builder_bad_char_rejected_witness :
    ("a b".toList.all allowed_key_id_char = false) ∧
    (Builder.check_key_id "a b" = Except.error Err.invalidPatch ∧
     (Builder.new Action.RemovePublicKeys).id "a b" = Except.error Err.invalidPatch ∧
     (Builder.new Action.RemoveServices).id "a b" = Except.error Err.invalidPatch ∧
     (Builder.new Action.AddPublicKeys).public_key
        ⟨⟨"a b", "did:example:1", "t", none, none⟩, none⟩ = Except.error Err.invalidPatch) :=
  ⟨by decide,
    builder_bad_char_rejected "a b" ⟨⟨"a b", "did:example:1", "t", none, none⟩, none⟩
      (by decide) rfl⟩

/-! ### Relationship-set bookkeeping lemmas -/

theorem get_push (s : VmRelationshipSet) (p c : KeyPurpose) (r : VmRelationship) :
    (s.push p r).get c = if p = c then s.get c ++ [r] else s.get c := by
  cases p <;> cases c <;> simp [VmRelationshipSet.push, VmRelationshipSet.get]

theorem count_purpose_nil (c : KeyPurpose) : count_purpose c [] = 0 := rfl

theorem count_purpose_cons (c p : KeyPurpose) (rest : List KeyPurpose) :
    count_purpose c (p :: rest) =
      (if p = c then 1 else 0) + count_purpose c rest := by
  by_cases hpc : p = c
  · simp [count_purpose, List.filter_cons, hpc, Nat.add_comm]
  · simp [count_purpose, List.filter_cons, hpc]

theorem push_purposes_get (ps : List KeyPurpose) (r : VmRelationship)
    (s : VmRelationshipSet) (c : KeyPurpose) :
    (push_purposes ps r s).get c = s.get c ++ List.replicate (count_purpose c ps) r := by
  induction ps generalizing s with
  | nil => simp [push_purposes, count_purpose_nil]
  | cons p rest ih =>
      rw [push_purposes, ih, get_push, count_purpose_cons]
      by_cases hpc : p = c
      · simp [hpc, List.replicate_add, List.append_assoc]
      · simp [hpc]

theorem add_keys_go_fst (keys : List VmWithPurpose) (vm : List VerificationMethod)
    (s : VmRelationshipSet) :
    (add_keys_go keys vm s).1 = vm ++ keys.map (fun k => k.verification_method) := by
  induction keys generalizing vm s with
  | nil => simp [add_keys_go]
  | cons k rest ih =>
      cases hk : k.purposes <;> simp [add_keys_go, hk, ih]

theorem add_keys_go_get (keys : List VmWithPurpose) (vm : List VerificationMethod)
    (s : VmRelationshipSet) (c : KeyPurpose) :
    (add_keys_go keys vm s).2.get c = s.get c ++ additions keys c := by
  induction keys generalizing vm s with
  | nil => simp [add_keys_go, additions]
  | cons k rest ih =>
      cases hk : k.purposes with
      | none => simp [add_keys_go, hk, ih, additions]
      | some ps => simp [add_keys_go, hk, ih, additions, push_purposes_get]

/-! ### Reference-counting lemmas -/

theorem key_ref_count_append (l1 l2 : List VmRelationship) (i : String) :
    key_ref_count (l1 ++ l2) i = key_ref_count l1 i + key_ref_count l2 i := by
  simp [key_ref_count, List.filter_append]

theorem key_ref_count_cons (r : VmRelationship) (l : List VmRelationship) (i : String) :
    key_ref_count (r :: l) i = (if r.key_id = some i then 1 else 0) + key_ref_count l i := by
  by_cases hk : r.key_id = some i
  · simp [key_ref_count, List.filter_cons, hk, Nat.add_comm]
  · simp [key_ref_count, List.filter_cons, hk]

theorem key_ref_count_replicate (n : Nat) (r : VmRelationship) (i : String) :
    key_ref_count (List.replicate n r) i = if r.key_id = some i then n else 0 := by
  induction n with
  | zero => simp [key_ref_count]
  | succ m ih =>
      rw [List.replicate_succ, key_ref_count_cons, ih]
      by_cases hk : r.key_id = some i <;> simp [hk, Nat.add_comm]

theorem key_ref_count_eq_zero (l : List VmRelationship) (i : String)
    (h : ∀ r ∈ l, r.key_id ≠ some i) : key_ref_count l i = 0 := by
  simp only [key_ref_count, List.length_eq_zero, List.filter_eq_nil_iff]
  intro r hr
  simpa using h r hr

theorem additions_count_zero (keys : List VmWithPurpose) (c : KeyPurpose) (i : String)
    (h : ∀ k ∈ keys, k.verification_method.id ≠ i) :
    key_ref_count (additions keys c) i = 0 := by
  induction keys with
  | nil => simp [additions, key_ref_count]
  | cons k rest ih =>
      have hk : k.verification_method.id ≠ i := h k (List.mem_cons_self k rest)
      have hrest := ih fun k2 hk2 => h k2 (List.mem_cons_of_mem k hk2)
      cases hp : k.purposes with
      | none => simpa [additions, hp, key_ref_count_append] using hrest
      | some ps =>
          rw [additions, hp, key_ref_count_append, hrest,
            key_ref_count_replicate]
          simp [VmRelationship.from_vm, hk]

theorem count_purpose_zero_of_not_mem (c : KeyPurpose) (ps : List KeyPurpose)
    (h : ∀ q ∈ ps, q ≠ c) : count_purpose c ps = 0 := by
  induction ps with
  | nil => rfl
  | cons p rest ih =>
      rw [count_purpose_cons, ih fun q hq => h q (List.mem_cons_of_mem p hq)]
      simp [h p (List.mem_cons_self p rest)]

theorem count_purpose_one_of_no_dup (c : KeyPurpose) (ps : List KeyPurpose)
    (hdup : has_duplicate_purpose ps = false) (hmem : c ∈ ps) :
    count_purpose c ps = 1 := by
  induction ps with
  | nil => cases hmem
  | cons p rest ih =>
      rw [has_duplicate_purpose, Bool.or_eq_false_iff] at hdup
      have hnotin : ∀ q ∈ rest, q ≠ p := by
        intro q hq
        have := hdup.1
        rw [List.any_eq_false] at this
        simpa using this q hq
      rw [count_purpose_cons]
      rcases List.mem_cons.mp hmem with hc | hc
      · subst hc
        rw [count_purpose_zero_of_not_mem c rest hnotin]
        simp
      · have hpc : p ≠ c := fun h => (hnotin c hc) h.symm
        rw [ih hdup.2 hc]
        simp [hpc]

/-! ### Claim C4: add-then-remove a key in one batch -/

theorem eq_of_fields (a b : DidDocument)
    (h1 : a.id = b.id) (h2 : a.context = b.context) (h3 : a.controller = b.controller)
    (h4 : a.also_known_as = b.also_known_as)
    (h5 : a.verification_method = b.verification_method)
    (h6 : a.authentication = b.authentication)
    (h7 : a.assertion_method = b.assertion_method)
    (h8 : a.key_agreement = b.key_agreement)
    (h9 : a.capability_invocation = b.capability_invocation)
    (h10 : a.capability_delegation = b.capability_delegation)
    (h11 : a.service = b.service) : a = b := by
  cases a
  cases b
  simp_all

theorem apply_add_keys_some (doc : DidDocument) (p : Patch) (keys : List VmWithPurpose)
    (hp : p.public_keys = some keys) :
    doc.apply_add_keys p =
      DidDocument.reload_vm_relationships
        { doc with verification_method :=
            if (add_keys_go keys (doc.verification_method.getD [])
                  (VmRelationshipSet.from_doc doc)).1.isEmpty then none
            else some (add_keys_go keys (doc.verification_method.getD [])
                  (VmRelationshipSet.from_doc doc)).1 }
        (add_keys_go keys (doc.verification_method.getD [])
          (VmRelationshipSet.from_doc doc)).2 := by
  unfold DidDocument.apply_add_keys
  rw [hp]

theorem apply_remove_keys_some_vm (doc : DidDocument) (p : Patch) (ids : List String)
    (v : List VerificationMethod) (hp : p.ids = some ids)
    (hv : doc.verification_method = some v) :
    doc.apply_remove_keys p =
      DidDocument.reload_vm_relationships
        { doc with verification_method := some (retain_not_ids ids v) }
        (remove_ids ids (VmRelationshipSet.from_doc doc)) := by
  unfold DidDocument.apply_remove_keys
  rw [hp, hv]

theorem no_empty_vm_rel (doc : DidDocument) (h : no_empty_relationships doc) :
    ∀ c, doc.vm_rel c ≠ some [] := by
  intro c
  cases c with
  | Authentication => exact h.1
  | AssertionMethod => exact h.2.1
  | KeyAgreement => exact h.2.2.1
  | CapabilityDelegation => exact h.2.2.2.1
  | CapabilityInvocation => exact h.2.2.2.2

theorem collapse_vm_rel (o : Option (List VmRelationship)) (ho : o ≠ some []) :
    (if (o.getD []).isEmpty then none else some (o.getD [])) = o := by
  cases o with
  | none => simp
  | some l =>
      cases l with
      | nil => exact absurd rfl ho
      | cons a t => simp

theorem filter_key_eq_self (l : List VmRelationship) (i : String)
    (h : ∀ r ∈ l, r.key_id ≠ some i) :
    l.filter (fun a => ¬ a.key_eq ⟨some i, none⟩) = l := by
  induction l with
  | nil => rfl
  | cons r t ih =>
      have hr : r.key_id ≠ some i := h r (List.mem_cons_self r t)
      have ht := ih fun r2 h2 => h r2 (List.mem_cons_of_mem r h2)
      have hcond : (decide ¬(r.key_eq ⟨some i, none⟩ = true)) = true := by
        simpa [VmRelationship.key_eq] using hr
      rw [List.filter_cons]
      rw [if_pos hcond, ht]

theorem filter_key_eq_replicate (n : Nat) (i : String) (vm : VerificationMethod)
    (hvm : vm.id = i) :
    (List.replicate n (VmRelationship.from_vm vm)).filter
      (fun a => ¬ a.key_eq ⟨some i, none⟩) = [] := by
  induction n with
  | zero => rfl
  | succ m ih =>
      simp [List.replicate_succ, List.filter_cons, VmRelationship.key_eq,
        VmRelationship.from_vm, hvm, ih]

theorem remove_ids_single (i : String) (s : VmRelationshipSet) :
    remove_ids [i] s = s.remove ⟨some i, none⟩ := rfl

theorem filter_id_ne_self (l : List VerificationMethod) (i : String)
    (h : ∀ v ∈ l, v.id ≠ i) :
    l.filter (fun v => v.id ≠ i) = l := by
  induction l with
  | nil => rfl
  | cons v t ih =>
      have hv : v.id ≠ i := h v (List.mem_cons_self v t)
      have ht := ih fun v2 h2 => h v2 (List.mem_cons_of_mem v h2)
      have hcond : (decide (v.id ≠ i)) = true := by simpa using hv
      rw [List.filter_cons]
      rw [if_pos hcond, ht]

/-- C4 counterexample: on a document whose `verification_method` field is
absent, adding key `k2` and removing it in the same batch does not restore
the document — the field comes back as `Some(empty list)`. -/
theorem add_then_remove_keys_not_noop :
    empty_doc.apply_patches [add_key_patch k2p, remove_keys_patch ["k2"]] ≠ empty_doc := by
  decide

/-- C4 (amended): the batch `[AddPublicKeys(k), RemovePublicKeys([k.id])]`
restores the document exactly, provided the method list is present and no
existing method or relationship entry uses the added key's id (and no
category is `Some(empty)`); without these provisos the batch can change the
document, as the counterexample shows. -/
theorem add_then_remove_keys_noop (doc : DidDocument) (k : VmWithPurpose)
    (vms : List VerificationMethod)
    (hvm : doc.verification_method = some vms)
    (hfresh : ∀ v ∈ vms, v.id ≠ k.verification_method.id)
    (hne : no_empty_relationships doc)
    (hrel : ∀ c, ∀ r ∈ (doc.vm_rel c).getD [], r.key_id ≠ some k.verification_method.id) :
    doc.apply_patches [add_key_patch k, remove_keys_patch [k.verification_method.id]] = doc := by
  have hstep : doc.apply_patches
        [add_key_patch k, remove_keys_patch [k.verification_method.id]] =
      (doc.apply_add_keys (add_key_patch k)).apply_remove_keys
        (remove_keys_patch [k.verification_method.id]) := rfl
  rw [hstep, apply_add_keys_some doc (add_key_patch k) [k] rfl]
  have hfst : (add_keys_go [k] (doc.verification_method.getD [])
      (VmRelationshipSet.from_doc doc)).1 = vms ++ [k.verification_method] := by
    rw [add_keys_go_fst, hvm]
    simp
  rw [hfst]
  have hne_fst : (vms ++ [k.verification_method]).isEmpty = false := by
    cases vms <;> rfl
  rw [hne_fst]
  simp only [Bool.false_eq_true, if_false]
  rw [apply_remove_keys_some_vm _ _ [k.verification_method.id]
    (vms ++ [k.verification_method]) rfl rfl]
  have hretain : retain_not_ids [k.verification_method.id] (vms ++ [k.verification_method])
      = vms := by
    show (vms ++ [k.verification_method]).filter
        (fun v => v.id ≠ k.verification_method.id) = vms
    rw [List.filter_append, filter_id_ne_self vms _ hfresh]
    simp [List.filter_cons]
  have hcat : ∀ c,
      (DidDocument.reload_vm_relationships
        { DidDocument.reload_vm_relationships
            { doc with verification_method := some (vms ++ [k.verification_method]) }
            (add_keys_go [k] (doc.verification_method.getD [])
              (VmRelationshipSet.from_doc doc)).2 with
          verification_method :=
            some (retain_not_ids [k.verification_method.id] (vms ++ [k.verification_method])) }
        (remove_ids [k.verification_method.id]
          (VmRelationshipSet.from_doc
            (DidDocument.reload_vm_relationships
              { doc with verification_method := some (vms ++ [k.verification_method]) }
              (add_keys_go [k] (doc.verification_method.getD [])
                (VmRelationshipSet.from_doc doc)).2)))).vm_rel c = doc.vm_rel c := by
    intro c
    rw [vm_rel_reload]
    have hget : (remove_ids [k.verification_method.id]
        (VmRelationshipSet.from_doc
          (DidDocument.reload_vm_relationships
            { doc with verification_method := some (vms ++ [k.verification_method]) }
            (add_keys_go [k] (doc.verification_method.getD [])
              (VmRelationshipSet.from_doc doc)).2))).get c = (doc.vm_rel c).getD [] := by
      rw [remove_ids_single, get_remove, get_from_doc, vm_rel_reload, collapse_getD,
        add_keys_go_get, get_from_doc, List.filter_append,
        filter_key_eq_self _ _ (hrel c)]
      have hadd : (additions [k] c).filter
          (fun a => ¬ a.key_eq ⟨some k.verification_method.id, none⟩) = [] := by
        cases hp : k.purposes with
        | none => simp [additions, hp]
        | some ps =>
            simp only [additions, List.append_nil]
            rw [hp]
            exact filter_key_eq_replicate _ _ _ rfl
      rw [hadd]
      simp
    rw [hget]
    exact collapse_vm_rel _ (no_empty_vm_rel doc hne c)
  refine eq_of_fields _ _ rfl rfl rfl rfl ?_ (hcat .Authentication) (hcat .AssertionMethod)
    (hcat .KeyAgreement) (hcat .CapabilityInvocation) (hcat .CapabilityDelegation) rfl
  show some (retain_not_ids [k.verification_method.id] (vms ++ [k.verification_method]))
      = doc.verification_method
  rw [hretain, hvm]

/-- Witness for the amended C4 at concrete inputs. -/
theorem add_then_remove_keys_noop_witness :
    doc1.verification_method = some [k1] ∧
    (∀ v ∈ [k1], v.id ≠ k2p.verification_method.id) ∧
    no_empty_relationships doc1 ∧
    (∀ c, ∀ r ∈ (doc1.vm_rel c).getD [], r.key_id ≠ some k2p.verification_method.id) ∧
    doc1.apply_patches
      [add_key_patch k2p, remove_keys_patch [k2p.verification_method.id]] = doc1 :=
  ⟨rfl, by decide, by decide, by decide,
    add_then_remove_keys_noop doc1 k2p [k1] rfl (by decide) (by decide) (by decide)⟩

/-! ### Claim C2: builder-made add-public-keys patches -/

theorem public_key_ok (b : Builder) (key : VmWithPurpose) (b2 : Builder)
    (h : b.public_key key = Except.ok b2) :
    b2.action = b.action ∧
    b2.public_keys = b.public_keys ++ [key] ∧
    (match key.purposes with
     | some ps => has_duplicate_purpose ps
     | none => false) = false ∧
    ∀ k0 ∈ b.public_keys, k0.verification_method.id ≠ key.verification_method.id := by
  unfold Builder.public_key at h
  split at h
  · exact Except.noConfusion h
  · split at h
    · exact Except.noConfusion h
    · split at h
      · exact Except.noConfusion h
      · split at h
        · exact Except.noConfusion h
        · rename_i hdup hany
          have hb2 := Except.ok.inj h
          subst hb2
          refine ⟨rfl, rfl, ?_, ?_⟩
          · simpa using hdup
          · intro k0 hk0
            have hany2 : (b.public_keys.any
                fun k => decide (k.verification_method.id = key.verification_method.id))
                  = false := by
              simpa using hany
            rw [List.any_eq_false] at hany2
            simpa using hany2 k0 hk0

theorem add_all_ok (keys : List VmWithPurpose) (b b2 : Builder)
    (h : b.add_all keys = Except.ok b2) :
    b2.action = b.action ∧
    b2.public_keys = b.public_keys ++ keys ∧
    (∀ k ∈ keys, (match k.purposes with
       | some ps => has_duplicate_purpose ps
       | none => false) = false) ∧
    (∀ k ∈ keys, ∀ k0 ∈ b.public_keys,
        k0.verification_method.id ≠ k.verification_method.id) ∧
    List.Pairwise
      (fun a b => a.verification_method.id ≠ b.verification_method.id) keys := by
  induction keys generalizing b with
  | nil =>
      have hb := Except.ok.inj h
      subst hb
      exact ⟨rfl, by simp, by simp, by simp, List.Pairwise.nil⟩
  | cons k rest ih =>
      rw [Builder.add_all] at h
      cases hpk : b.public_key k with
      | error e => rw [hpk] at h; exact Except.noConfusion h
      | ok b1 =>
          rw [hpk] at h
          obtain ⟨ha1, hpks1, hdup1, hfresh1⟩ := public_key_ok b k b1 hpk
          obtain ⟨ha2, hpks2, hdup2, hfresh2, hpair⟩ := ih b1 h
          have hkmem : k ∈ b1.public_keys := by
            rw [hpks1]
            exact List.mem_append_right _ (List.mem_singleton.mpr rfl)
          refine ⟨ha2.trans ha1, ?_, ?_, ?_, ?_⟩
          · rw [hpks2, hpks1, List.append_assoc, List.singleton_append]
          · intro k2 hk2
            rcases List.mem_cons.mp hk2 with h2 | h2
            · subst h2; exact hdup1
            · exact hdup2 k2 h2
          · intro k2 hk2 k0 hk0
            rcases List.mem_cons.mp hk2 with h2 | h2
            · subst h2; exact hfresh1 k0 hk0
            · exact hfresh2 k2 h2 k0 (by rw [hpks1]; exact List.mem_append_left _ hk0)
          · refine List.pairwise_cons.mpr ⟨?_, hpair⟩
            intro k2 hk2
            exact hfresh2 k2 hk2 k hkmem

theorem build_add_keys_ok (b : Builder) (patch : Patch)
    (ha : b.action = Action.AddPublicKeys)
    (h : b.build = Except.ok patch) :
    patch = ⟨Action.AddPublicKeys, none, none, none, some b.public_keys⟩ := by
  unfold Builder.build at h
  rw [ha] at h
  have h2 : (if b.public_keys.isEmpty = true
      then (Except.error Err.invalidPatch : Except Err Patch)
      else Except.ok ⟨Action.AddPublicKeys, none, none, none, some b.public_keys⟩) =
        Except.ok patch := h
  split at h2
  · exact Except.noConfusion h2
  · exact (Except.ok.inj h2).symm

theorem additions_count (keys : List VmWithPurpose) (c : KeyPurpose) (k : VmWithPurpose)
    (hpair : List.Pairwise
      (fun a b => a.verification_method.id ≠ b.verification_method.id) keys)
    (hk : k ∈ keys) :
    key_ref_count (additions keys c) k.verification_method.id =
      count_purpose c (k.purposes.getD []) := by
  induction keys with
  | nil => cases hk
  | cons k0 rest ih =>
      obtain ⟨hhead, hpair2⟩ := List.pairwise_cons.mp hpair
      rcases List.mem_cons.mp hk with h0 | h0
      · subst h0
        rw [additions, key_ref_count_append,
          additions_count_zero rest c _ fun k2 hk2 => (hhead k2 hk2).symm]
        cases hp : k.purposes with
        | none => simp [key_ref_count, count_purpose]
        | some ps =>
            rw [key_ref_count_replicate]
            simp [VmRelationship.from_vm]
      · have hk0id : k0.verification_method.id ≠ k.verification_method.id := hhead k h0
        rw [additions, key_ref_count_append, ih hpair2 h0]
        cases hp : k0.purposes with
        | none => simp [key_ref_count]
        | some ps =>
            rw [key_ref_count_replicate]
            simp [VmRelationship.from_vm, hk0id]

/-- C2 counterexample: on a document already holding an `authentication`
reference to `k2`, the Builder-made patch adding `k2` with purpose
`authentication` leaves the reference present twice, not exactly once. -/
theorem add_keys_ref_appears_twice :
    (Builder.new Action.AddPublicKeys).add_all [k2p] =
      Except.ok ⟨Action.AddPublicKeys, none, [], [], [k2p]⟩ ∧
    Builder.build ⟨Action.AddPublicKeys, none, [], [], [k2p]⟩ = Except.ok patch_add_k2 ∧
    key_ref_count
      (((({ empty_doc with authentication := some [k2_ref] }).apply_patches
          [patch_add_k2]).vm_rel KeyPurpose.Authentication).getD []) "k2" = 2 ∧
    (2 : Nat) ≠ 1 := by
  decide

/-- C2 (amended): for a Builder-constructed `AddPublicKeys` patch applied to
a document none of whose existing relationship entries reference the patch's
key ids, every key appears by id in the resulting method list, and for each
declared purpose the key's reference appears exactly once in that category
(on documents already referencing a patched id, the reference is merely
appended, as the counterexample shows). -/
theorem add_keys_patch_spec (doc : DidDocument) (keys : List VmWithPurpose)
    (b : Builder) (patch : Patch)
    (hb : (Builder.new Action.AddPublicKeys).add_all keys = Except.ok b)
    (hbuild : b.build = Except.ok patch)
    (hfresh : ∀ c, ∀ r ∈ (doc.vm_rel c).getD [], ∀ k ∈ keys,
        r.key_id ≠ some k.verification_method.id) :
    (∀ k ∈ keys, ∃ v ∈ (doc.apply_patches [patch]).verification_method.getD [],
        v.id = k.verification_method.id) ∧
    (∀ k ∈ keys, ∀ ps, k.purposes = some ps → ∀ c ∈ ps,
        key_ref_count (((doc.apply_patches [patch]).vm_rel c).getD [])
          k.verification_method.id = 1) := by
  obtain ⟨hact, hpks, hdup, _hfr, hpair⟩ :=
    add_all_ok keys (Builder.new Action.AddPublicKeys) b hb
  rw [show (Builder.new Action.AddPublicKeys).public_keys = [] from rfl,
    List.nil_append] at hpks
  have hpatch := build_add_keys_ok b patch (by rw [hact]; rfl) hbuild
  have hact2 : patch.action = Action.AddPublicKeys := by rw [hpatch]
  have hpk2 : patch.public_keys = some keys := by rw [hpatch, hpks]
  have h1 : doc.apply_patches [patch] = doc.apply_add_keys patch := by
    simp only [DidDocument.apply_patches, hact2]
  have h2 := apply_add_keys_some doc patch keys hpk2
  simp only [h1, h2]
  constructor
  · intro k hk
    have hfst : (add_keys_go keys (doc.verification_method.getD [])
        (VmRelationshipSet.from_doc doc)).1 =
          doc.verification_method.getD [] ++
            keys.map (fun k => k.verification_method) := add_keys_go_fst _ _ _
    have hkmem : k.verification_method ∈ (add_keys_go keys
        (doc.verification_method.getD []) (VmRelationshipSet.from_doc doc)).1 := by
      rw [hfst]
      exact List.mem_append_right _ (List.mem_map_of_mem _ hk)
    rw [reload_verification_method]
    have hcond : ¬ ((add_keys_go keys (doc.verification_method.getD [])
        (VmRelationshipSet.from_doc doc)).1.isEmpty = true) :=
      fun he => (List.ne_nil_of_mem hkmem) (List.isEmpty_iff.mp he)
    show ∃ v ∈ (if (add_keys_go keys (doc.verification_method.getD [])
        (VmRelationshipSet.from_doc doc)).1.isEmpty then none
      else some (add_keys_go keys (doc.verification_method.getD [])
        (VmRelationshipSet.from_doc doc)).1).getD [], v.id = k.verification_method.id
    rw [if_neg hcond]
    exact ⟨k.verification_method, hkmem, rfl⟩
  · intro k hk ps hps c hc
    rw [vm_rel_reload, collapse_getD, add_keys_go_get, get_from_doc,
      key_ref_count_append,
      key_ref_count_eq_zero _ _ (fun r hr => hfresh c r hr k hk),
      additions_count keys c k hpair hk, hps, Nat.zero_add]
    simp only [Option.getD_some]
    have hdupk := hdup k hk
    rw [hps] at hdupk
    exact count_purpose_one_of_no_dup c ps hdupk hc

/-- Witness for the amended C2 at concrete inputs. -/
theorem add_keys_patch_spec_witness :
    (Builder.new Action.AddPublicKeys).add_all [k2p] =
      Except.ok ⟨Action.AddPublicKeys, none, [], [], [k2p]⟩ ∧
    Builder.build ⟨Action.AddPublicKeys, none, [], [], [k2p]⟩ = Except.ok patch_add_k2 ∧
    (∀ c, ∀ r ∈ (doc1.vm_rel c).getD [], ∀ k ∈ [k2p],
        r.key_id ≠ some k.verification_method.id) ∧
    ((∀ k ∈ [k2p], ∃ v ∈ (doc1.apply_patches [patch_add_k2]).verification_method.getD [],
        v.id = k.verification_method.id) ∧
     (∀ k ∈ [k2p], ∀ ps, k.purposes = some ps → ∀ c ∈ ps,
        key_ref_count (((doc1.apply_patches [patch_add_k2]).vm_rel c).getD [])
          k.verification_method.id = 1)) :=
  ⟨by decide, by decide, by decide,
    add_keys_patch_spec doc1 [k2p] ⟨Action.AddPublicKeys, none, [], [], [k2p]⟩
      patch_add_k2 (by decide) (by decide) (by decide)⟩

/-! ### Claim C9: single-or-list serialization round trip -/

/-- C9: the flexible codec serializes a one-element list as the bare
element and a zero- or multi-element list as an array; deserializing either
the bare-object wire form or the one-element-array wire form yields the same
one-element list, so serialize-then-deserialize round-trips for
single-element fields in both wire forms. -/
theorem flexvec_single_roundtrip {T : Type} (C : ElemCodec T) (t : T)
    (o : List (String × Json))
    (hser : C.ser t = Json.obj o) (hde : C.de_obj o = some t) :
    flexvec_serialize C [t] = Json.obj o ∧
    flexvec_serialize C ([] : List T) = Json.arr [] ∧
    (∀ ts : List T, ts.length ≠ 1 → flexvec_serialize C ts = Json.arr (ts.map C.ser)) ∧
    flexvec_deserialize C (flexvec_serialize C [t]) = Except.ok [t] ∧
    flexvec_deserialize C (Json.arr [C.ser t]) = Except.ok [t] := by
  have hone : flexvec_serialize C [t] = Json.obj o := hser
  refine ⟨hone, rfl, ?_, ?_, ?_⟩
  · intro ts hts
    match ts with
    | [] => rfl
    | [x] => exact absurd rfl hts
    | x :: y :: rest => rfl
  · rw [hone]
    simp [flexvec_deserialize, hde]
  · rw [hser]
    simp [flexvec_deserialize, visit_seq_elems, hde]

/-- Witness for C9 at a concrete element codec and value. -/
theorem flexvec_single_roundtrip_witness :
    name_codec.ser "x" = Json.obj [("n", Json.str "x")] ∧
    name_codec.de_obj [("n", Json.str "x")] = some "x" ∧
    (flexvec_serialize name_codec ["x"] = Json.obj [("n", Json.str "x")] ∧
     flexvec_serialize name_codec ([] : List String) = Json.arr [] ∧
     (∀ ts : List String, ts.length ≠ 1 →
        flexvec_serialize name_codec ts = Json.arr (ts.map name_codec.ser)) ∧
     flexvec_deserialize name_codec (flexvec_serialize name_codec ["x"]) =
        Except.ok ["x"] ∧
     flexvec_deserialize name_codec (Json.arr [name_codec.ser "x"]) =
        Except.ok ["x"]) :=
  ⟨rfl, rfl, flexvec_single_roundtrip name_codec "x" [("n", Json.str "x")] rfl rfl⟩

/-! ### Claim C10: embedded-array strings that fail to parse -/

/-- C10: a string input that begins with a bracket but whose embedded-array
parse fails deserializes successfully to the empty list (in both codec
variants), whereas a string not beginning with a bracket whose element parse
fails is rejected with a deserialization error. -/
theorem visit_str_embedded_fallback {T : Type} (C : ElemCodec T) (s1 s2 : String)
    (h1 : starts_with_bracket s1 = true) (h2 : C.parse_embedded s1 = none)
    (h3 : starts_with_bracket s2 = false) (h4 : C.from_str s2 = none) :
    flexvec_deserialize C (Json.str s1) = Except.ok [] ∧
    flexvec_deserialize C (Json.str s2) = Except.error DeError.invalidType ∧
    option_flexvec_deserialize C (Json.str s1) = Except.ok (some []) ∧
    option_flexvec_deserialize C (Json.str s2) = Except.error DeError.invalidType := by
  refine ⟨?_, ?_, ?_, ?_⟩ <;>
    simp [flexvec_deserialize, option_flexvec_deserialize, h1, h2, h3, h4]

/-- Witness for C10 at concrete strings. -/
theorem visit_str_embedded_fallback_witness :
    (starts_with_bracket "[oops" = true) ∧
    (name_codec.parse_embedded "[oops" = none) ∧
    (starts_with_bracket "nope" = false) ∧
    (name_codec.from_str "nope" = none) ∧
    (flexvec_deserialize name_codec (Json.str "[oops") = Except.ok [] ∧
     flexvec_deserialize name_codec (Json.str "nope") =
        Except.error DeError.invalidType ∧
     option_flexvec_deserialize name_codec (Json.str "[oops") = Except.ok (some []) ∧
     option_flexvec_deserialize name_codec (Json.str "nope") =
        Except.error DeError.invalidType) :=
  ⟨by decide, rfl, by decide, rfl,
    visit_str_embedded_fallback name_codec "[oops" "nope" (by decide) rfl
      (by decide) rfl⟩
